import Mathlib

/-!
Verification of the timed-caption segmentation and deduplication engine
(`src/ytdlp/ytdlp_mcp.py`, class `YtDlpService`).

Python strings are modelled as `List Char` (`Str`).  Python floats are
modelled as `ℚ` (all arithmetic the engine performs on times is exact on
the inputs considered).  Python's mutable `set` of seen strings is
modelled as a `List Str` queried only through membership.  Fallible
Python code (a cue-time parse guarded by `try`/`except`) is modelled with
`Option`; a crash of the whole transform (an unbound local variable) is
modelled with `Except String`.
-/

namespace YtDlp

/-- Python strings, modelled as lists of characters. -/
abbrev Str := List Char

/-- `str.strip()`: drop whitespace from both ends. -/
def strip (s : Str) : Str :=
  ((s.dropWhile Char.isWhitespace).reverse.dropWhile Char.isWhitespace).reverse

/-- Python's substring test `a in b`. -/
def isSub (a b : Str) : Bool :=
  b.tails.any (fun t => a.isPrefixOf t)

/-- `str.split(c)` for a single-character separator. -/
def splitOnChar (c : Char) : Str → List Str
  | [] => [[]]
  | x :: xs =>
    match splitOnChar c xs with
    | [] => [[x]]
    | h :: t => if x = c then [] :: h :: t else (x :: h) :: t

/-- `"\n".join(lines)`. -/
def joinNL (ls : List Str) : Str :=
  List.intercalate ['\n'] ls

/-- `"\n\n".join(parts)` (used between chapter sections). -/
def joinBlank (ls : List Str) : Str :=
  List.intercalate ['\n', '\n'] ls

/-- Numeric value of a decimal digit character. -/
def digitVal (c : Char) : ℕ := c.toNat - 48

/-- Fold a run of decimal digits onto an accumulator (base 10). -/
def parseDigitsFrom (a : ℕ) (l : Str) : ℕ :=
  l.foldl (fun acc c => 10 * acc + digitVal c) a

/-- `str.isdigit()`: non-empty and all characters are decimal digits. -/
def pyIsDigit (l : Str) : Bool := !l.isEmpty && l.all Char.isDigit

/-- The digit tail shared by `int(...)` and `float(...)`: a non-empty
run of decimal digits, as a natural number. -/
def pyDigits? (l : Str) : Option ℕ :=
  if !l.isEmpty && l.all Char.isDigit then some (parseDigitsFrom 0 l) else none

/-- Python `int(s)` on a string: optional surrounding whitespace, an
optional sign, then a non-empty digit run; `none` models `ValueError`.
(Exotic accepted forms such as underscores or non-ASCII digits are not
modelled; none arise in caption timestamps.) -/
def pyInt? (s : Str) : Option ℤ :=
  match strip s with
  | [] => none
  | c :: rest =>
    if c = '+' then (pyDigits? rest).map (fun n => (n : ℤ))
    else if c = '-' then (pyDigits? rest).map (fun n => -(n : ℤ))
    else (pyDigits? (c :: rest)).map (fun n => (n : ℤ))

/-- Unsigned part of Python `float(s)`: `digits`, `digits.digits`,
`digits.` or `.digits`. -/
def pyFloatCore (l : Str) : Option ℚ :=
  match splitOnChar '.' l with
  | [ip] => (pyDigits? ip).map (fun n => (n : ℚ))
  | [ip, fp] =>
    if (ip.all Char.isDigit && fp.all Char.isDigit) && !(ip.isEmpty && fp.isEmpty) then
      some ((parseDigitsFrom 0 ip : ℚ) + (parseDigitsFrom 0 fp : ℚ) / (10 : ℚ) ^ fp.length)
    else none
  | _ => none

/-- Python `float(s)` on a string: optional surrounding whitespace, an
optional sign, then a decimal literal; `none` models `ValueError`.
(Exponent, `inf`/`nan` and underscore forms are not modelled; none arise
in caption timestamps.) -/
def pyFloat? (s : Str) : Option ℚ :=
  match strip s with
  | [] => none
  | c :: rest =>
    if c = '+' then pyFloatCore rest
    else if c = '-' then (pyFloatCore rest).map (fun q => -q)
    else pyFloatCore (c :: rest)

/-- A time value as received by `_time_to_seconds`: either a Python
string or an already-numeric value (`isinstance(time_str, (int, float))`). -/
abbrev TimeVal := Sum Str ℚ

/-- `YtDlpService._time_to_seconds` (lines 40-66): numbers are returned
unchanged; strings are split on `:` and interpreted as `HH:MM:SS`,
`MM:SS`, or a bare number; every parse failure is caught and the
function returns `0.0`. -/
def timeToSeconds : TimeVal → ℚ
  | Sum.inr q => q
  | Sum.inl s =>
    match splitOnChar ':' s with
    | [h, m, sec] =>
      match pyInt? h, pyInt? m, pyFloat? sec with
      | some hi, some mi, some sv => (hi : ℚ) * 3600 + (mi : ℚ) * 60 + sv
      | _, _, _ => 0
    | [m, sec] =>
      match pyInt? m, pyFloat? sec with
      | some mi, some sv => (mi : ℚ) * 60 + sv
      | _, _ => 0
    | _ => ((pyFloat? s).getD 0)

/-- A string is a parseable time value: a well-formed `H:MM:SS`,
`M:SS`, or bare-number literal (the three shapes `_time_to_seconds`
accepts). -/
def timeParseable (s : Str) : Bool :=
  match splitOnChar ':' s with
  | [h, m, sec] => (pyInt? h).isSome && (pyInt? m).isSome && (pyFloat? sec).isSome
  | [m, sec] => (pyInt? m).isSome && (pyFloat? sec).isSome
  | _ => (pyFloat? s).isSome

/-- Stable insertion used to model Python's stable `sorted(...)`: a new
element goes after every element whose key is `le` it. -/
def insertBy {α : Type} (le : α → α → Bool) (a : α) : List α → List α
  | [] => [a]
  | b :: bs => if le b a then b :: insertBy le a bs else a :: b :: bs

/-- Python `sorted(l, key=...)` (stable). -/
def pySorted {α : Type} (le : α → α → Bool) (l : List α) : List α :=
  l.foldl (fun acc a => insertBy le a acc) []

/-- State of the per-range dedup loop (lines 415-443): `out` holds the
emitted lines most-recent-first (`out.head?` models
`processed_lines[-1]`), `seen` models the `seen_texts` set. -/
structure DedupSt where
  out : List Str
  seen : List Str
deriving DecidableEq

/-- One iteration of the segment-processing loop of
`_extract_subtitles_for_timerange` (lines 423-443): strip the segment
text; skip it if seen verbatim; skip it if it is a substring of the last
emitted line; replace the last emitted line if that line is a substring
of it; otherwise append it. -/
def dedupStep (st : DedupSt) (raw : Str) : DedupSt :=
  let text := strip raw
  if text ∈ st.seen then st
  else
    match st.out with
    | [] => ⟨[text], text :: st.seen⟩
    | last :: rest =>
      if isSub text last then st
      else if isSub last text then ⟨text :: rest, text :: st.seen⟩
      else ⟨text :: last :: rest, text :: st.seen⟩

/-- The dedup pass over a list of segment texts, in order; returns the
emitted lines in emission order. -/
def dedupeTexts (ts : List Str) : List Str :=
  (ts.foldl dedupStep ⟨[], []⟩).out.reverse

/-- Comparison used by `subtitle_segments.sort(key=lambda x: x["time"])`. -/
def segLe (a b : ℚ × Str) : Bool := decide (a.1 ≤ b.1)

/-- Lines 415-445 of `_extract_subtitles_for_timerange`, at segment
level: sort the collected `(time, text)` segments by time (stable) and
run the dedup pass over their texts. -/
def dedupSegments (segs : List (ℚ × Str)) : List Str :=
  dedupeTexts ((pySorted segLe segs).map (fun p => p.2))

/-- Two strings neither of which is a substring of the other. -/
def noMutualSub (a b : Str) : Prop := isSub a b = false ∧ isSub b a = false

instance : DecidableRel noMutualSub := fun a b =>
  inferInstanceAs (Decidable (isSub a b = false ∧ isSub b a = false))

/-- A chapter dict after the conversion step of `extract_subtitles`:
`start_time` and any `end_time` are numeric. -/
structure Chapter where
  start : ℚ
  title : Str
  endTime : Option ℚ
deriving DecidableEq

/-- A chapter dict as supplied by the caller: `start_time` (and the
optional `end_time`) may still be a string. -/
structure RawChapter where
  start : TimeVal
  title : Str
  endTime : Option TimeVal

/-- The conversion step of `extract_subtitles` (lines 86-98): a chapter
time value that is not already numeric is passed through
`_time_to_seconds`; numeric values are kept. -/
def convertChapter (r : RawChapter) : Chapter :=
  ⟨timeToSeconds r.start, r.title, r.endTime.map timeToSeconds⟩

/-- Conversion applied to the whole caller-supplied chapter list. -/
def convertChapters (l : List RawChapter) : List Chapter :=
  l.map convertChapter

/-- A resolved chapter range (an entry of `chapter_ranges`). -/
structure SubRange where
  start : ℚ
  stop : ℚ
  title : Str
deriving DecidableEq

/-- The inner `for i, full_chapter in enumerate(all_chapters)` search
(lines 217-228): index of the first entry matching the chapter's start
time and title. -/
def findMatch (s : ℚ) (t : Str) : List Chapter → ℕ → Option ℕ
  | [], _ => none
  | c :: rest, k =>
    if c.start = s ∧ c.title = t then some k else findMatch s t rest (k + 1)

/-- `min(c.get("start_time", video_duration) for c in next_chapters)`
with the `if next_chapters: ... else: video_duration` guard around it
(lines 238-243). -/
def minStarts (D : ℚ) : List ℚ → ℚ
  | [] => D
  | x :: xs => xs.foldl min x

/-- Lines 215-228: consult `all_chapters` (when truthy) for the
chapter's end time.  Returns the inferred end (if the chapter was found)
and the final value of the Python loop variable `i` — which stays
untouched when the loop does not run. -/
def lookupEndInAll (allCh : List Chapter) (D : ℚ) (c : Chapter) (iVar : Option ℕ) :
    Option ℚ × Option ℕ :=
  if allCh.isEmpty then (none, iVar)
  else
    match findMatch c.start c.title allCh 0 with
    | some k =>
      (some (if k = allCh.length - 1 then D
             else match allCh.get? (k + 1) with
                  | some nxt => nxt.start
                  | none => D),
       some k)
    | none => (none, some (allCh.length - 1))

/-- Lines 231-243: fall back to the smallest later start among the
requested chapters, or the video duration. -/
def fallbackEnd (selectedSorted : List Chapter) (D : ℚ) (c : Chapter) : ℚ :=
  minStarts D ((selectedSorted.filter (fun x => decide (c.start < x.start))).map
    (fun x => x.start))

/-- Lines 208-243: determine a chapter's pre-buffer end time, threading
the Python local `i` (None models "never assigned"). -/
def chapterEnd (allCh selectedSorted : List Chapter) (D : ℚ) (c : Chapter)
    (iVar : Option ℕ) : ℚ × Option ℕ :=
  match c.endTime with
  | some e => (e, iVar)
  | none =>
    match lookupEndInAll allCh D c iVar with
    | (some e, iv) => (e, iv)
    | (none, iv) => (fallbackEnd selectedSorted D c, iv)

/-- Lines 204-252 of `_process_vtt_content`: build `chapter_ranges`.
Line 246 reads the loop variable `i`; if it was never assigned, Python
raises `UnboundLocalError`, modelled as `Except.error`.  Line 247-248
add the 2-second buffer when `i` says this is not the last requested
chapter and the pre-buffer end is below the duration. -/
def resolveGo (allCh selectedSorted : List Chapter) (D : ℚ) (n : ℕ) :
    Option ℕ → List Chapter → Except String (List SubRange)
  | _, [] => Except.ok []
  | iVar, c :: rest =>
    match chapterEnd allCh selectedSorted D c iVar with
    | (_, none) =>
      Except.error ("UnboundLocalError: local variable i referenced before assignment")
    | (e0, some i) =>
      match resolveGo allCh selectedSorted D n (some i) rest with
      | Except.ok rs =>
        Except.ok (⟨c.start, if ¬(i = n - 1) ∧ e0 < D then e0 + 2 else e0, c.title⟩ :: rs)
      | Except.error msg => Except.error msg

/-- Key comparison of `sorted(selected_chapters, key=...start_time)`. -/
def chLe (a b : Chapter) : Bool := decide (a.start ≤ b.start)

instance {ε α : Type} [DecidableEq ε] [DecidableEq α] : DecidableEq (Except ε α) :=
  fun x y =>
  match x, y with
  | Except.ok a, Except.ok b =>
    decidable_of_iff (a = b) ⟨fun h => h ▸ rfl, fun h => by injection h⟩
  | Except.error a, Except.error b =>
    decidable_of_iff (a = b) ⟨fun h => h ▸ rfl, fun h => by injection h⟩
  | Except.ok _, Except.error _ => isFalse (fun h => by injection h)
  | Except.error _, Except.ok _ => isFalse (fun h => by injection h)

/-- Lines 196-252: sort the requested chapters by start time and
resolve each one to a `SubRange`. -/
def resolveRanges (selected allCh : List Chapter) (D : ℚ) :
    Except String (List SubRange) :=
  resolveGo allCh (pySorted chLe selected) D (pySorted chLe selected).length none
    (pySorted chLe selected)

/-- The cue-timing separator literal. -/
def arrowStr : Str := ("-->").data

/-- Consume one expected character. -/
def expectChar (c : Char) : Str → Option Str
  | x :: rest => if x = c then some rest else none
  | [] => none

/-- Consume a non-empty run of decimal digits (regex `\d+`). -/
def dropDigits1 : Str → Option Str
  | c :: rest => if c.isDigit then some (rest.dropWhile Char.isDigit) else none
  | [] => none

/-- Match the timestamp-tag regex at the head of the string: a `<`,
three digit runs separated by `:`, a `.`, a digit run, and `>`. -/
def matchTsTag (s : Str) : Option Str :=
  (expectChar '<' s).bind fun s1 =>
  (dropDigits1 s1).bind fun s2 =>
  (expectChar ':' s2).bind fun s3 =>
  (dropDigits1 s3).bind fun s4 =>
  (expectChar ':' s4).bind fun s5 =>
  (dropDigits1 s5).bind fun s6 =>
  (expectChar '.' s6).bind fun s7 =>
  (dropDigits1 s7).bind fun s8 =>
  expectChar '>' s8

/-- Left-to-right non-overlapping removal of timestamp tags; every step
consumes at least one character, so the input length is enough fuel. -/
def removeTsTagsGo : ℕ → Str → Str
  | 0, s => s
  | _ + 1, [] => []
  | fuel + 1, c :: rest =>
    match matchTsTag (c :: rest) with
    | some r => removeTsTagsGo fuel r
    | none => c :: removeTsTagsGo fuel rest

/-- `re.sub` of the timestamp-tag pattern with the empty string. -/
def removeTsTags (s : Str) : Str := removeTsTagsGo s.length s

/-- Left-to-right removal of `<c>` and `</c>` tags. -/
def removeCTagsGo : ℕ → Str → Str
  | 0, s => s
  | _ + 1, [] => []
  | fuel + 1, '<' :: '/' :: 'c' :: '>' :: r => removeCTagsGo fuel r
  | fuel + 1, '<' :: 'c' :: '>' :: r => removeCTagsGo fuel r
  | fuel + 1, c :: rest => c :: removeCTagsGo fuel rest

/-- `re.sub` of the `</?c>` pattern with the empty string. -/
def removeCTags (s : Str) : Str := removeCTagsGo s.length s

/-- Replace each maximal whitespace run with a single space. -/
def collapseWsGo : ℕ → Str → Str
  | 0, s => s
  | _ + 1, [] => []
  | fuel + 1, c :: rest =>
    if c.isWhitespace then ' ' :: collapseWsGo fuel (rest.dropWhile Char.isWhitespace)
    else c :: collapseWsGo fuel rest

/-- `re.sub(r"\s+", " ", text)`. -/
def collapseWs (s : Str) : Str := collapseWsGo s.length s

/-- `_clean_subtitle_text` (lines 447-468): remove timestamp tags, then
`<c>`/`</c>` tags, collapse whitespace, and trim. -/
def cleanText (t : Str) : Str := strip (collapseWs (removeCTags (removeTsTags t)))

/-- `line.split(pat)[0]`: the prefix before the first occurrence of
`pat` (the whole line when `pat` does not occur). -/
def takeBefore (pat : Str) : Str → Str
  | [] => []
  | c :: rest => if pat.isPrefixOf (c :: rest) then [] else c :: takeBefore pat rest

/-- Timestamp parsing inside `_extract_subtitles_for_timerange` (lines
374-382): two colons → `H:M:S`, one colon → `M:S`; any unpacking or
conversion failure is caught by the surrounding `except` (`pass`). -/
def parseVttTime (ts : Str) : Option ℚ :=
  match splitOnChar ':' ts with
  | [h, m, s] =>
    match pyInt? h, pyInt? m, pyFloat? s with
    | some hi, some mi, some sv => some ((hi : ℚ) * 3600 + (mi : ℚ) * 60 + sv)
    | _, _, _ => none
  | [m, s] =>
    match pyInt? m, pyFloat? s with
    | some mi, some sv => some ((mi : ℚ) * 60 + sv)
    | _, _ => none
  | _ => none

/-- The inner text-collection loop (lines 390-406): gather cleaned text
lines following a timing line, until the next timing line or a blank
line, skipping numeric index lines; pieces are joined with single
spaces. -/
def collectCueText (acc : Str) : List Str → Str
  | [] => acc
  | l :: rest =>
    if isSub arrowStr l then acc
    else if (strip l).isEmpty then acc
    else
      collectCueText
        (if pyIsDigit (strip l) then acc
         else
           (let cl := cleanText (strip l)
            if cl.isEmpty then acc
            else if acc.isEmpty then cl else acc ++ ' ' :: cl))
        rest

/-- The outer scan of `_extract_subtitles_for_timerange` (lines
360-413): find timing lines, parse their start time, and collect the
cue text of those with `start_seconds <= t < end_seconds`; the scan
advances one line at a time (`i += 1`). -/
def extractSegments : List Str → ℚ → ℚ → List (ℚ × Str)
  | [], _, _ => []
  | l :: rest, s, e =>
    if isSub arrowStr l then
      match parseVttTime (strip (takeBefore arrowStr l)) with
      | some t =>
        if s ≤ t ∧ t < e then
          (let text := collectCueText [] rest
           if text.isEmpty then extractSegments rest s e
           else (t, text) :: extractSegments rest s e)
        else extractSegments rest s e
      | none => extractSegments rest s e
    else extractSegments rest s e

/-- `_extract_subtitles_for_timerange` (lines 342-445): collect the
segments in range, sort them by time, dedup, and join with newlines. -/
def extractRangeText (lines : List Str) (s e : ℚ) : Str :=
  joinNL (dedupSegments (extractSegments lines s e))

/-- State of the flat-mode loop of `_process_all_subtitles`:
`started` models `start_processing`, `out` holds `processed_lines`
most-recent-first, `seen` models `seen_sentences`, `cur` models
`current_sentence`. -/
structure FlatSt where
  started : Bool
  out : List Str
  seen : List Str
  cur : Str

/-- `cleaned_line.endswith((".", "!", "?"))`. -/
def endsSentence (l : Str) : Bool :=
  match l.getLast? with
  | some c => c = '.' || c = '!' || c = '?'
  | none => false

/-- The body of the flat-mode loop after the header check (lines
287-322): skip timing lines, numeric index lines, empty cleaned lines,
and lines contained in the last emitted sentence; a line ending a
sentence completes `current_sentence` and emits it unless seen; other
lines extend `current_sentence`. -/
def flatBody (st : FlatSt) (line : Str) : FlatSt :=
  if isSub arrowStr line then st
  else if pyIsDigit (strip line) then st
  else
    let cleaned := cleanText (strip line)
    if cleaned.isEmpty then st
    else if (match st.out with | last :: _ => isSub cleaned last | [] => false) then st
    else if endsSentence cleaned then
      (let full := if st.cur.isEmpty then cleaned else strip (st.cur ++ ' ' :: cleaned)
       if full ∈ st.seen then { st with cur := [] }
       else { st with out := full :: st.out, seen := full :: st.seen, cur := [] })
    else
      { st with cur := if st.cur.isEmpty then cleaned else st.cur ++ ' ' :: cleaned }

/-- One line of the flat-mode loop (lines 275-322), with blank-line and
`WEBVTT` header skipping. -/
def flatStep (st : FlatSt) (line : Str) : FlatSt :=
  if (strip line).isEmpty then st
  else if !st.started && ("WEBVTT").data.isPrefixOf line then st
  else flatBody { st with started := true } line

/-- The remaining-sentence flush after the loop (lines 324-327),
returning `processed_lines` in order. -/
def flatFlush (st : FlatSt) : List Str :=
  if ¬ st.cur.isEmpty ∧ st.cur ∉ st.seen then (st.cur :: st.out).reverse
  else st.out.reverse

/-- The sentence-collection phase of `_process_all_subtitles` (lines
266-327). -/
def collectFlat (lines : List Str) : List Str :=
  flatFlush (lines.foldl flatStep ⟨false, [], [], []⟩)

/-- The final cleanup pass (lines 329-338): drop each line that is a
substring of a line at a different index. -/
def finalCleanup (ls : List Str) : List Str :=
  (ls.enum.filter
    (fun p => !(ls.enum.any (fun q => decide (q.1 ≠ p.1) && isSub p.2 q.2)))).map
    (fun p => p.2)

/-- `_process_all_subtitles` (lines 266-340) as a line list. -/
def processAllLines (lines : List Str) : List Str :=
  finalCleanup (collectFlat lines)

/-- `_process_all_subtitles` (lines 266-340). -/
def processAllSubtitles (lines : List Str) : Str :=
  joinNL (processAllLines lines)

/-- `_process_vtt_content` (lines 171-264), with the caption blob
already split into lines: flat mode when no chapters are selected;
otherwise resolve the chapter ranges (which can raise
`UnboundLocalError`, see `resolveGo`) and append a `## title` element
and a body element per range with non-empty body, joined by blank
lines. -/
def processVtt (lines : List Str) (selected allCh : List Chapter) (D : ℚ) :
    Except String Str :=
  if selected.isEmpty then Except.ok (processAllSubtitles lines)
  else
    match resolveRanges selected allCh D with
    | Except.error e => Except.error e
    | Except.ok ranges =>
      Except.ok (joinBlank (ranges.foldr
        (fun r acc =>
          (let subs := extractRangeText lines r.start r.stop
           if subs.isEmpty then acc else (("## ").data ++ r.title) :: subs :: acc))
        []))

/-- The VTT lines of the C2 scenario's cue stream. -/
def scenarioLines : List Str :=
  [("WEBVTT").data, [],
   ("00:00:00.000 --> 00:00:01.000").data, ("Hello").data, [],
   ("00:00:01.000 --> 00:00:02.500").data, ("Hello world").data, [],
   ("00:00:02.500 --> 00:00:05.000").data, ("Hello world.").data, [],
   ("00:00:10.000 --> 00:00:11.000").data, ("Goodbye.").data, []]

/-- State for the spec-side flat-mode comparison model (C6). -/
structure SpecFlatSt where
  started : Bool
  sens : List Str
  cur : Str

/-- Spec-side comparison model (for the C6 refinement check), following
the spec's words for flat mode: "accumulate cue text into sentences by
concatenating fragments with a single space until a line ends in `.`,
`!`, or `?`" — one line of that assembly, with the same header,
timing-line and index-line skips as the code but no other per-line
filtering; completed sentences are collected unconditionally. -/
def specFlatStep (st : SpecFlatSt) (line : Str) : SpecFlatSt :=
  if (strip line).isEmpty then st
  else if !st.started && ("WEBVTT").data.isPrefixOf line then st
  else
    (let st' : SpecFlatSt := { st with started := true }
     if isSub arrowStr line then st'
     else if pyIsDigit (strip line) then st'
     else
       (let cleaned := cleanText (strip line)
        if cleaned.isEmpty then st'
        else if endsSentence cleaned then
          { st' with
            sens := (if st'.cur.isEmpty then cleaned
                     else strip (st'.cur ++ ' ' :: cleaned)) :: st'.sens,
            cur := [] }
        else
          { st' with cur := if st'.cur.isEmpty then cleaned
                            else st'.cur ++ ' ' :: cleaned }))

/-- Spec-side sentence assembly over all lines, any trailing fragment
included. -/
def specAssembleSentences (lines : List Str) : List Str :=
  (let st := lines.foldl specFlatStep ⟨false, [], []⟩
   if st.cur.isEmpty then st.sens else st.cur :: st.sens).reverse

/-- Spec-side flat-mode pipeline for C6: treat each completed sentence
as a line, apply the §4.4 per-range dedup rules to the sentence
sequence, then run the final substring cleanup. -/
def specFlatDedupe (lines : List Str) : List Str :=
  finalCleanup (dedupeTexts (specAssembleSentences lines))

/-- Decimal digits of `n`, most significant first (fuelled; `n + 1`
steps always suffice). -/
def natDigitsGo : ℕ → ℕ → Str
  | 0, _ => []
  | fuel + 1, n =>
    if n < 10 then [Nat.digitChar n]
    else natDigitsGo fuel (n / 10) ++ [Nat.digitChar (n % 10)]

/-- Decimal representation of a natural number. -/
def natDigits (n : ℕ) : Str := natDigitsGo (n + 1) n

/-- Zero-pad to width `w`. -/
def padZero (w : ℕ) (l : Str) : Str := List.replicate (w - l.length) '0' ++ l

/-- The `f"{n:02d}"` fields of `_format_time`: minimum width 2, zero
padded after the sign. -/
def fmt02 (n : ℤ) : Str :=
  if n < 0 then '-' :: padZero 1 (natDigits n.natAbs) else padZero 2 (natDigits n.natAbs)

/-- Python `int(...)` truncation toward zero, on exact rationals. -/
def pyTrunc (q : ℚ) : ℤ :=
  if 0 ≤ q.num then ((q.num.toNat / q.den : ℕ) : ℤ)
  else -((q.num.natAbs / q.den : ℕ) : ℤ)

/-- `_format_time` (lines 470-486): truncate to an integer, `divmod` by
3600 and 60, and render `HH:MM:SS` when hours > 0, else `MM:SS`
(Python `divmod` is floor-based, which `Int.ediv`/`Int.emod` match for
the positive divisors used here). -/
def formatTime (seconds : ℚ) : Str :=
  if 0 < Int.ediv (pyTrunc seconds) 3600 then
    fmt02 (Int.ediv (pyTrunc seconds) 3600) ++ ':' ::
      (fmt02 (Int.ediv (Int.emod (pyTrunc seconds) 3600) 60) ++ ':' ::
        fmt02 (Int.emod (Int.emod (pyTrunc seconds) 3600) 60))
  else
    fmt02 (Int.ediv (Int.emod (pyTrunc seconds) 3600) 60) ++ ':' ::
      fmt02 (Int.emod (Int.emod (pyTrunc seconds) 3600) 60)

theorem timeToSeconds_unparseable (s : Str) (hs : timeParseable s = false) :
    timeToSeconds (Sum.inl s) = 0 := by
  simp only [timeToSeconds]
  unfold timeParseable at hs
  rcases hsp : splitOnChar ':' s with _ | ⟨a, _ | ⟨b, _ | ⟨c, _ | ⟨d, rest⟩⟩⟩⟩ <;>
    rw [hsp] at hs
  · cases hf : pyFloat? s <;> simp [hf] at hs ⊢
  · cases hf : pyFloat? s <;> simp [hf] at hs ⊢
  · rcases h1 : pyInt? a with _ | v1 <;> rcases h2 : pyFloat? b with _ | v2 <;>
      simp [h1, h2] at hs ⊢
  · rcases h1 : pyInt? a with _ | v1 <;> rcases h2 : pyInt? b with _ | v2 <;>
      rcases h3 : pyFloat? c with _ | v3 <;> simp [h1, h2, h3] at hs ⊢
  · cases hf : pyFloat? s <;> simp [hf] at hs ⊢

/-- Claim C10: the time parser is total — a numeric input is returned
unchanged, and any string that is not a parseable `H:MM:SS`, `M:SS` or
bare-number value yields `0.0` instead of an error. -/
theorem c10_parser_total :
    (∀ q : ℚ, timeToSeconds (Sum.inr q) = q) ∧
    (∀ s : Str, timeParseable s = false → timeToSeconds (Sum.inl s) = 0) :=
  ⟨fun _ => rfl, timeToSeconds_unparseable⟩

/-- Witness for C10 at concrete inputs: the number `5` is returned
unchanged and the unparseable string `"abc"` yields `0`. -/
theorem c10_parser_total_witness :
    timeToSeconds (Sum.inr (5 : ℚ)) = 5 ∧ timeToSeconds (Sum.inl ("abc").data) = 0 :=
  ⟨c10_parser_total.1 5, c10_parser_total.2 (("abc").data) (by decide)⟩

theorem mem_insertBy {α : Type} (le : α → α → Bool) (a x : α) :
    ∀ l : List α, x ∈ insertBy le a l ↔ x = a ∨ x ∈ l := by
  intro l
  induction l with
  | nil => simp [insertBy]
  | cons b bs ih =>
    by_cases h : le b a = true
    · simp [insertBy, h, ih]
      tauto
    · simp [insertBy, h]

theorem mem_pySorted {α : Type} (le : α → α → Bool) (l : List α) (x : α) :
    x ∈ pySorted le l ↔ x ∈ l := by
  have key : ∀ (l acc : List α), x ∈ l.foldl (fun acc a => insertBy le a acc) acc ↔
      x ∈ acc ∨ x ∈ l := by
    intro l
    induction l with
    | nil => simp
    | cons b bs ih =>
      intro acc
      rw [List.foldl_cons, ih, mem_insertBy]
      simp
      tauto
  rw [pySorted, key]
  simp

theorem dedupStep_closure (st : DedupSt) (raw : Str)
    (h1 : ∀ l ∈ st.out, l ∈ st.seen) (h2 : st.out.Pairwise (fun a b => a ≠ b)) :
    (∀ l ∈ (dedupStep st raw).out, l ∈ (dedupStep st raw).seen) ∧
    (dedupStep st raw).out.Pairwise (fun a b => a ≠ b) := by
  obtain ⟨out, seen⟩ := st
  simp only at h1 h2
  by_cases hseen : strip raw ∈ seen
  · have hstep : dedupStep ⟨out, seen⟩ raw = ⟨out, seen⟩ := by
      simp [dedupStep, hseen]
    rw [hstep]
    exact ⟨h1, h2⟩
  · cases out with
    | nil =>
      have hstep : dedupStep ⟨[], seen⟩ raw = ⟨[strip raw], strip raw :: seen⟩ := by
        simp [dedupStep, hseen]
      rw [hstep]
      simp
    | cons last rest =>
      rw [List.pairwise_cons] at h2
      by_cases ha : isSub (strip raw) last = true
      · have hstep : dedupStep ⟨last :: rest, seen⟩ raw = ⟨last :: rest, seen⟩ := by
          simp [dedupStep, hseen, ha]
        rw [hstep]
        exact ⟨h1, List.pairwise_cons.mpr h2⟩
      · by_cases hb : isSub last (strip raw) = true
        · have hstep : dedupStep ⟨last :: rest, seen⟩ raw =
              ⟨strip raw :: rest, strip raw :: seen⟩ := by
            simp [dedupStep, hseen, ha, hb]
          rw [hstep]
          constructor
          · intro l hl
            rcases List.mem_cons.mp hl with h | h
            · simp [h]
            · exact List.mem_cons_of_mem _ (h1 l (List.mem_cons_of_mem _ h))
          · rw [List.pairwise_cons]
            refine ⟨fun u hu => ?_, h2.2⟩
            intro hcontra
            exact hseen (hcontra ▸ h1 u (List.mem_cons_of_mem _ hu))
        · have hstep : dedupStep ⟨last :: rest, seen⟩ raw =
              ⟨strip raw :: last :: rest, strip raw :: seen⟩ := by
            simp [dedupStep, hseen, ha, hb]
          rw [hstep]
          constructor
          · intro l hl
            rcases List.mem_cons.mp hl with h | h
            · simp [h]
            · exact List.mem_cons_of_mem _ (h1 l h)
          · rw [List.pairwise_cons]
            refine ⟨fun u hu => ?_, List.pairwise_cons.mpr h2⟩
            intro hcontra
            exact hseen (hcontra ▸ h1 u hu)

theorem dedup_foldl_closure (ts : List Str) : ∀ st : DedupSt,
    (∀ l ∈ st.out, l ∈ st.seen) → st.out.Pairwise (fun a b => a ≠ b) →
    (∀ l ∈ (ts.foldl dedupStep st).out, l ∈ (ts.foldl dedupStep st).seen) ∧
    (ts.foldl dedupStep st).out.Pairwise (fun a b => a ≠ b) := by
  induction ts with
  | nil => intro st h1 h2; exact ⟨h1, h2⟩
  | cons t ts' ih =>
    intro st h1 h2
    rw [List.foldl_cons]
    have h := dedupStep_closure st t h1 h2
    exact ih _ h.1 h.2

theorem dedup_pairwise_ne (ts : List Str) :
    (dedupeTexts ts).Pairwise (fun a b => a ≠ b) := by
  unfold dedupeTexts
  rw [List.pairwise_reverse]
  exact ((dedup_foldl_closure ts ⟨[], []⟩ (by simp) (by simp)).2).imp (fun hab => hab.symm)

theorem dedup_foldl_id (ts : List Str) : ∀ rev seen : List Str,
    (∀ t ∈ ts, strip t = t) → ts.Pairwise (fun a b => a ≠ b) →
    ts.Chain' noMutualSub → (∀ t ∈ ts, t ∉ seen) →
    (∀ l t, rev.head? = some l → ts.head? = some t → noMutualSub t l) →
    ts.foldl dedupStep ⟨rev, seen⟩ = ⟨ts.reverse ++ rev, ts.reverse ++ seen⟩ := by
  induction ts with
  | nil => intro rev seen _ _ _ _ _; simp
  | cons t ts' ih =>
    intro rev seen hstrip hne hchain hseen hlink
    have hst : strip t = t := hstrip t (by simp)
    have hts : t ∉ seen := hseen t (by simp)
    have hstep : dedupStep ⟨rev, seen⟩ t = ⟨t :: rev, t :: seen⟩ := by
      cases rev with
      | nil => simp [dedupStep, hst, hts]
      | cons l rest =>
        have hnm : noMutualSub t l := hlink l t rfl rfl
        simp [dedupStep, hst, hts, hnm.1, hnm.2]
    rw [List.foldl_cons, hstep]
    rw [List.pairwise_cons] at hne
    rw [ih (t :: rev) (t :: seen) (fun u hu => hstrip u (List.mem_cons_of_mem _ hu))
      hne.2 hchain.tail ?_ ?_]
    · simp
    · intro u hu
      simp only [List.mem_cons]
      push_neg
      exact ⟨fun he => (hne.1 u hu) he.symm, hseen u (List.mem_cons_of_mem _ hu)⟩
    · intro l u hl hu
      simp only [List.head?_cons, Option.some.injEq] at hl
      cases ts' with
      | nil => simp at hu
      | cons v ts'' =>
        simp only [List.head?_cons, Option.some.injEq] at hu
        have hrel : noMutualSub t v := (List.chain'_cons.mp hchain).1
        subst hl hu
        exact ⟨hrel.2, hrel.1⟩

/-- Claim C1 (corrected), counterexample: the per-range dedup pass is
not idempotent.  On the cues `["a", "xy", "xy a"]` (one range,
increasing times) the first pass yields the lines `["a", "xy a"]` —
the replace step leaves `"a"` a substring of the new last line — and
feeding that output back through the pass (same positions/time order)
merges further, yielding `["xy a"]`. -/
theorem c1_counterexample :
    dedupSegments [((0 : ℚ), ("a").data), (1, ("xy").data), (2, ("xy a").data)] =
      [("a").data, ("xy a").data] ∧
    dedupSegments [((0 : ℚ), ("a").data), (1, ("xy a").data)] ≠
      [("a").data, ("xy a").data] := by
  constructor
  · decide
  · decide

/-- Claim C1 (amended): the dedup pass is deterministic, and it is
idempotent exactly on outputs with no adjacent substring pair — a line
sequence that is stripped, pairwise distinct, and in which no line is a
substring of an adjacent line is a fixed point of the pass.  (The first
pass's output need not satisfy the adjacency condition after a
replacement, which is what the counterexample exploits.) -/
theorem c1_dedupe_fixed (ts : List Str) (hstrip : ∀ t ∈ ts, strip t = t)
    (hne : ts.Pairwise (fun a b => a ≠ b)) (hchain : ts.Chain' noMutualSub) :
    dedupeTexts ts = ts := by
  unfold dedupeTexts
  rw [dedup_foldl_id ts [] [] hstrip hne hchain (by simp) (by intro l t h1 h2; simp at h1)]
  simp

/-- Witness for C1's amended theorem at a concrete input. -/
theorem c1_dedupe_fixed_witness :
    dedupeTexts [("ab").data, ("cd").data] = [("ab").data, ("cd").data] :=
  c1_dedupe_fixed [("ab").data, ("cd").data] (by decide) (by decide)
    (List.chain'_cons.mpr ⟨⟨by decide, by decide⟩, List.chain'_singleton _⟩)

/-- Claim C5: if the most recently emitted line is a substring of the
current cue's stripped text (and the text is neither already seen nor a
substring of that line), the dedup step replaces the last emitted line
instead of appending; in particular the cues `"AI cod"` then
`"AI coding is fun."` inside one range yield exactly the single line
`"AI coding is fun."`. -/
theorem c5_substring_supersede :
    (∀ (seen rest : List Str) (last t : Str),
        strip t ∉ seen → isSub (strip t) last = false → isSub last (strip t) = true →
        dedupStep ⟨last :: rest, seen⟩ t = ⟨strip t :: rest, strip t :: seen⟩) ∧
    dedupSegments [((0 : ℚ), ("AI cod").data), (1, ("AI coding is fun.").data)] =
      [("AI coding is fun.").data] := by
  constructor
  · intro seen rest last t h1 h2 h3
    simp [dedupStep, h1, h2, h3]
  · decide

/-- Witness for C5's universally quantified part at a concrete input,
together with its closed part. -/
theorem c5_substring_supersede_witness :
    dedupStep ⟨[("a").data], []⟩ ("ab").data = ⟨[("ab").data], [("ab").data]⟩ ∧
    dedupSegments [((0 : ℚ), ("AI cod").data), (1, ("AI coding is fun.").data)] =
      [("AI coding is fun.").data] := by
  constructor
  · have h := c5_substring_supersede.1 [] [] (("a").data) (("ab").data)
      (by decide) (by decide) (by decide)
    rw [show strip (("ab").data) = ("ab").data from by decide] at h
    exact h
  · exact c5_substring_supersede.2

/-- Claim C9: for every cue sequence filtered to a range, the per-range
dedup output is pairwise distinct — no line occurs twice. -/
theorem c9_pairwise_distinct (segs : List (ℚ × Str)) :
    (dedupSegments segs).Pairwise (fun a b => a ≠ b) :=
  dedup_pairwise_ne _

/-- Claim C4 (corrected), counterexample: an unparseable caller-supplied
chapter time does not raise any error — the conversion step completes
and silently turns the value into `0.0` (there is no `FormatError`
anywhere in the engine). -/
theorem c4_counterexample :
    convertChapters [⟨Sum.inl (("garbage").data), ("T").data, none⟩] =
      [⟨0, ("T").data, none⟩] := by
  decide

/-- Claim C4 (amended): unparseable caller-supplied top-level chapter
time values are tolerated exactly like cue-internal ones — the
conversion step never raises and maps them to `0.0`. -/
theorem c4_unparseable_tolerated (r : RawChapter) (s : Str)
    (hr : r.start = Sum.inl s) (hp : timeParseable s = false) :
    (convertChapter r).start = 0 := by
  simp only [convertChapter, hr]
  exact timeToSeconds_unparseable s hp

/-- Witness for C4's amended theorem at a concrete input. -/
theorem c4_unparseable_tolerated_witness :
    (convertChapter ⟨Sum.inl (("xx").data), ("T").data, none⟩).start = 0 :=
  c4_unparseable_tolerated ⟨Sum.inl (("xx").data), ("T").data, none⟩ (("xx").data)
    rfl (by decide)

theorem foldl_min_le_init (xs : List ℚ) : ∀ x : ℚ, xs.foldl min x ≤ x := by
  induction xs with
  | nil => intro x; exact le_refl x
  | cons y ys ih =>
    intro x
    rw [List.foldl_cons]
    exact le_trans (ih (min x y)) (min_le_left x y)

theorem minStarts_le (D : ℚ) (l : List ℚ) (h : ∀ x ∈ l, x ≤ D) :
    minStarts D l ≤ D := by
  cases l with
  | nil => exact le_refl D
  | cons x xs =>
    exact le_trans (foldl_min_le_init xs x) (h x (by simp))

theorem lookupEndInAll_le (allCh : List Chapter) (D : ℚ) (c : Chapter)
    (iVar iv : Option ℕ) (e : ℚ) (hall : ∀ x ∈ allCh, x.start ≤ D)
    (hlk : lookupEndInAll allCh D c iVar = (some e, iv)) : e ≤ D := by
  unfold lookupEndInAll at hlk
  by_cases hemp : allCh.isEmpty
  · rw [if_pos hemp] at hlk
    simp at hlk
  · rw [if_neg hemp] at hlk
    cases hfm : findMatch c.start c.title allCh 0 with
    | none => rw [hfm] at hlk; simp at hlk
    | some k =>
      rw [hfm] at hlk
      simp only [Prod.mk.injEq, Option.some.injEq] at hlk
      rw [← hlk.1]
      by_cases hk : k = allCh.length - 1
      · rw [if_pos hk]
      · rw [if_neg hk]
        cases hget : allCh.get? (k + 1) with
        | none => exact le_refl D
        | some nxt => exact hall nxt (List.get?_mem hget)

theorem fallbackEnd_le (ss : List Chapter) (D : ℚ) (c : Chapter)
    (hss : ∀ x ∈ ss, x.start ≤ D) : fallbackEnd ss D c ≤ D := by
  unfold fallbackEnd
  apply minStarts_le
  intro x hx
  rcases List.mem_map.mp hx with ⟨y, hy, hyx⟩
  rw [← hyx]
  exact hss y (List.mem_filter.mp hy).1

theorem chapterEnd_le (allCh ss : List Chapter) (D : ℚ) (c : Chapter)
    (iVar : Option ℕ) (hall : ∀ x ∈ allCh, x.start ≤ D)
    (hss : ∀ x ∈ ss, x.start ≤ D) (hc : ∀ e, c.endTime = some e → e ≤ D) :
    (chapterEnd allCh ss D c iVar).1 ≤ D := by
  unfold chapterEnd
  cases he : c.endTime with
  | some e => exact hc e he
  | none =>
    rcases hlk : lookupEndInAll allCh D c iVar with ⟨oe, iv⟩
    cases oe with
    | some e => exact lookupEndInAll_le allCh D c iVar iv e hall hlk
    | none => exact fallbackEnd_le ss D c hss

theorem resolveGo_bound (allCh ss : List Chapter) (D : ℚ) (n : ℕ)
    (hall : ∀ x ∈ allCh, x.start ≤ D) (hss : ∀ x ∈ ss, x.start ≤ D) :
    ∀ (cs : List Chapter) (iVar : Option ℕ) (ranges : List SubRange),
      (∀ c ∈ cs, ∀ e, c.endTime = some e → e ≤ D) →
      resolveGo allCh ss D n iVar cs = Except.ok ranges →
      ∀ r ∈ ranges, r.stop ≤ D + 2 := by
  intro cs
  induction cs with
  | nil =>
    intro iVar ranges _ hres r hr
    simp only [resolveGo, Except.ok.injEq] at hres
    rw [← hres] at hr
    simp at hr
  | cons c rest ih =>
    intro iVar ranges hends hres r hr
    simp only [resolveGo] at hres
    split at hres
    · simp at hres
    · rename_i e0 i heq
      split at hres
      · rename_i rs hrec
        simp only [Except.ok.injEq] at hres
        rw [← hres] at hr
        rcases List.mem_cons.mp hr with h | h
        · have he0 : e0 ≤ D := by
            have := chapterEnd_le allCh ss D c iVar hall hss (hends c (by simp))
            rw [heq] at this
            exact this
          rw [h]
          by_cases hcond : ¬((i = n - 1)) ∧ e0 < D
          · simp only [if_pos hcond]
            linarith
          · simp only [if_neg hcond]
            linarith
        · exact ih (some i) rs (fun c' hc' e he => hends c' (List.mem_cons_of_mem _ hc') e he)
            hrec r h
      · simp at hres

/-- Claim C3 (corrected), counterexample: a non-last resolved range's
buffered end can exceed the total duration — with chapters A (start 0)
and B (start 5) over duration 6, chapter A resolves to end `5 + 2 = 7 > 6`;
nothing caps the buffered end at the next range's start or the duration. -/
theorem c3_counterexample :
    resolveRanges [⟨0, ("A").data, none⟩, ⟨5, ("B").data, none⟩]
        [⟨0, ("A").data, none⟩, ⟨5, ("B").data, none⟩] 6 =
      Except.ok [⟨0, 7, ("A").data⟩, ⟨5, 6, ("B").data⟩] ∧ ¬((7 : ℚ) ≤ 6) := by
  constructor
  · norm_num [resolveRanges, pySorted, insertBy, chLe, resolveGo, chapterEnd,
      lookupEndInAll, findMatch, List.foldl]
  · norm_num

/-- Claim C3 (amended): a non-last range's end gets the 2-second buffer
only when the pre-buffer end is strictly below the duration, and the
result is not capped — it can exceed the duration by up to 2 seconds.
Whenever every chapter time in the input is at most the duration `D`,
every successfully resolved range's end is at most `D + 2`. -/
theorem c3_buffer_not_capped (selected allCh : List Chapter) (D : ℚ)
    (ranges : List SubRange)
    (hsel : ∀ c ∈ selected, c.start ≤ D ∧ ∀ e, c.endTime = some e → e ≤ D)
    (hall : ∀ c ∈ allCh, c.start ≤ D)
    (hres : resolveRanges selected allCh D = Except.ok ranges) :
    ∀ r ∈ ranges, r.stop ≤ D + 2 := by
  unfold resolveRanges at hres
  exact resolveGo_bound allCh (pySorted chLe selected) D (pySorted chLe selected).length
    hall (fun x hx => (hsel x ((mem_pySorted chLe selected x).mp hx)).1)
    (pySorted chLe selected) none ranges
    (fun c hc e he => (hsel c ((mem_pySorted chLe selected c).mp hc)).2 e he) hres

/-- Witness for C3's amended theorem at a concrete input. -/
theorem c3_buffer_not_capped_witness :
    (⟨0, 5, ("A").data⟩ : SubRange).stop ≤ 5 + 2 :=
  c3_buffer_not_capped [⟨0, ("A").data, none⟩] [⟨0, ("A").data, none⟩] 5
    [⟨0, 5, ("A").data⟩] (by decide) (by decide) rfl ⟨0, 5, ("A").data⟩
    (List.mem_singleton_self _)

/-- Claim C7: cue selection uses the half-open interval
`[start, end)` — extracting over `[s, e)` equals extracting over any
enclosing window and keeping exactly the cues with `s ≤ t < e`. -/
theorem c7_halfopen_filter (lines : List Str) (s e s' e' : ℚ)
    (hs : s' ≤ s) (he : e ≤ e') :
    (extractSegments lines s' e').filter
        (fun c => decide (s ≤ c.1) && decide (c.1 < e)) =
      extractSegments lines s e := by
  induction lines with
  | nil => simp [extractSegments]
  | cons l rest ih =>
    by_cases harr : isSub arrowStr l = true
    · cases hp : parseVttTime (strip (takeBefore arrowStr l)) with
      | none => simp [extractSegments, harr, hp, ih]
      | some t =>
        by_cases hin : s ≤ t ∧ t < e
        · have hin' : s' ≤ t ∧ t < e' := ⟨le_trans hs hin.1, lt_of_lt_of_le hin.2 he⟩
          by_cases htxt : (collectCueText [] rest).isEmpty = true
          · simp [extractSegments, harr, hp, hin, hin', htxt, ih]
          · simp [extractSegments, harr, hp, hin, hin', htxt, ih]
        · by_cases hin' : s' ≤ t ∧ t < e'
          · by_cases htxt : (collectCueText [] rest).isEmpty = true
            · simp [extractSegments, harr, hp, hin, hin', htxt, ih]
            · simp [extractSegments, harr, hp, hin, hin', htxt, ih]
          · simp [extractSegments, harr, hp, hin, hin', ih]
    · simp [extractSegments, harr, ih]

/-- Witness for C7 at a concrete input and concrete nested windows. -/
theorem c7_halfopen_filter_witness :
    (extractSegments [("0:05 --> 0:06").data, ("hello").data] 0 100).filter
        (fun c => decide ((2 : ℚ) ≤ c.1) && decide (c.1 < 50)) =
      extractSegments [("0:05 --> 0:06").data, ("hello").data] 2 50 :=
  c7_halfopen_filter [("0:05 --> 0:06").data, ("hello").data] 2 50 0 100
    (by norm_num) (by norm_num)

/-- Claim C2 (code bug): on the spec's scenario — chapters
`{start 0, title "Intro", end 5}` and `{start 5, title "Outro"}` over
duration 12 — chaptered-mode processing does not return the expected
transcript: the first selected chapter carries an explicit end, so the
inner `enumerate(all_chapters)` loop never runs, and line 246
(`is_last_chapter = i == len(selected_chapters) - 1`) reads the loop
variable `i` before any assignment, raising `UnboundLocalError`. -/
theorem c2_scenario_crash :
    processVtt scenarioLines
        [⟨0, ("Intro").data, some 5⟩, ⟨5, ("Outro").data, none⟩] [] 12 =
      Except.error
        ("UnboundLocalError: local variable i referenced before assignment") := by
  decide

/-- Claim C6 (corrected), counterexample: flat mode does not apply the
per-range dedup rules to completed sentences.  On the lines
`["abc d.", "abc", "e."]` the code skips the fragment `"abc"` because it
is a substring of the last emitted sentence, producing
`["abc d.", "e."]`; deduplicating the assembled sentences with the §4.4
rules (as the claim states) would keep the assembled `"abc e."` and
produce `["abc d.", "abc e."]`. -/
theorem c6_counterexample :
    processAllLines [("abc d.").data, ("abc").data, ("e.").data] =
      [("abc d.").data, ("e.").data] ∧
    specFlatDedupe [("abc d.").data, ("abc").data, ("e.").data] =
      [("abc d.").data, ("abc e.").data] ∧
    processAllLines [("abc d.").data, ("abc").data, ("e.").data] ≠
      specFlatDedupe [("abc d.").data, ("abc").data, ("e.").data] := by
  refine ⟨by decide, by decide, by decide⟩

theorem finalCleanup_no_sub (ls : List Str) (a b : Str)
    (ha : a ∈ finalCleanup ls) (hb : b ∈ finalCleanup ls) (hab : a ≠ b) :
    isSub a b = false := by
  unfold finalCleanup at ha hb
  rcases List.mem_map.mp ha with ⟨p, hpmem, hpa⟩
  rcases List.mem_filter.mp hpmem with ⟨hpenum, hppred⟩
  rcases List.mem_map.mp hb with ⟨q, hqmem, hqb⟩
  rcases List.mem_filter.mp hqmem with ⟨hqenum, _⟩
  have hij : q.1 ≠ p.1 := by
    intro hqp
    apply hab
    have h1 : ls[p.1]? = some p.2 := List.mem_enum_iff_getElem?.mp hpenum
    have h2 : ls[q.1]? = some q.2 := List.mem_enum_iff_getElem?.mp hqenum
    rw [hqp, h1] at h2
    rw [← hpa, ← hqb, Option.some_inj.mp h2]
  rw [Bool.not_eq_true'] at hppred
  by_contra hcontra
  have hany : ls.enum.any (fun q' => decide (q'.1 ≠ p.1) && isSub p.2 q'.2) = true := by
    rw [List.any_eq_true]
    refine ⟨q, hqenum, ?_⟩
    rw [Bool.and_eq_true, decide_eq_true_eq]
    refine ⟨hij, ?_⟩
    rw [hpa, hqb]
    exact Bool.of_not_eq_false hcontra
  rw [hppred] at hany
  exact Bool.false_ne_true hany

/-- Claim C6 (amended): flat mode deduplicates completed sentences by
an exact-match seen set only — there is no substring-supersede
replacement; instead, a raw line that is a substring of the most
recently emitted sentence is skipped before sentence assembly — and the
final cleanup pass then guarantees that no retained line is a substring
of any other retained line. -/
theorem c6_flat_no_substring_pairs (lines : List Str) (a b : Str)
    (ha : a ∈ processAllLines lines) (hb : b ∈ processAllLines lines)
    (hab : a ≠ b) : isSub a b = false :=
  finalCleanup_no_sub (collectFlat lines) a b ha hb hab

/-- Witness for C6's amended theorem at a concrete input. -/
theorem c6_flat_no_substring_pairs_witness :
    isSub (("Hi.").data) (("Yo.").data) = false :=
  c6_flat_no_substring_pairs [("Hi.").data, ("Yo.").data] (("Hi.").data) (("Yo.").data)
    (by decide) (by decide) (by decide)

theorem splitOnChar_no_sep (c : Char) (a : Str) (h : c ∉ a) :
    splitOnChar c a = [a] := by
  induction a with
  | nil => rfl
  | cons x xs ih =>
    have hx : ¬ x = c := by
      intro hxc
      exact h (by simp [hxc])
    have hxs : c ∉ xs := fun hm => h (List.mem_cons_of_mem _ hm)
    rw [splitOnChar, ih hxs]
    simp [hx]

theorem splitOnChar_ne_nil (c : Char) (b : Str) : splitOnChar c b ≠ [] := by
  cases b with
  | nil => simp [splitOnChar]
  | cons x xs =>
    rw [splitOnChar]
    cases hsp : splitOnChar c xs with
    | nil => simp
    | cons h1 t1 => by_cases hx : x = c <;> simp [hx]

theorem splitOnChar_append_sep (c : Char) (a b : Str) (h : c ∉ a) :
    splitOnChar c (a ++ c :: b) = a :: splitOnChar c b := by
  induction a with
  | nil =>
    rw [List.nil_append, splitOnChar]
    rcases hb : splitOnChar c b with _ | ⟨h1, t1⟩
    · exact absurd hb (splitOnChar_ne_nil c b)
    · simp
  | cons x xs ih =>
    have hx : ¬ x = c := by
      intro hxc
      exact h (by simp [hxc])
    have hxs : c ∉ xs := fun hm => h (List.mem_cons_of_mem _ hm)
    rw [List.cons_append, splitOnChar, ih hxs]
    simp [hx]

theorem components_parse : ∀ n : ℕ, n < 100 →
    pyInt? (padZero 2 (natDigits n)) = some (n : ℤ) ∧
    pyFloat? (padZero 2 (natDigits n)) = some (n : ℚ) ∧
    ':' ∉ padZero 2 (natDigits n) := by
  decide

theorem fmt02_natCast (n : ℕ) : fmt02 ((n : ℕ) : ℤ) = padZero 2 (natDigits n) := by
  rw [fmt02, if_neg (not_lt.mpr (Int.natCast_nonneg n)), Int.natAbs_ofNat]

theorem pyTrunc_natCast (s : ℕ) : pyTrunc (s : ℚ) = (s : ℤ) := by
  simp [pyTrunc, Rat.num_natCast, Rat.den_natCast]

/-- Claim C8: formatting any integer number of seconds in
`[0, 359999]` with `_format_time` (`HH:MM:SS` when hours > 0, else
`MM:SS`) and parsing the result back with `_time_to_seconds`
reproduces the value exactly. -/
theorem timeToSeconds_parts3 (s0 h m sec : Str) (hi mi : ℤ) (sv : ℚ)
    (hsp : splitOnChar ':' s0 = [h, m, sec]) (h1 : pyInt? h = some hi)
    (h2 : pyInt? m = some mi) (h3 : pyFloat? sec = some sv) :
    timeToSeconds (Sum.inl s0) = (hi : ℚ) * 3600 + (mi : ℚ) * 60 + sv := by
  simp only [timeToSeconds, hsp, h1, h2, h3]

theorem timeToSeconds_parts2 (s0 m sec : Str) (mi : ℤ) (sv : ℚ)
    (hsp : splitOnChar ':' s0 = [m, sec])
    (h2 : pyInt? m = some mi) (h3 : pyFloat? sec = some sv) :
    timeToSeconds (Sum.inl s0) = (mi : ℚ) * 60 + sv := by
  simp only [timeToSeconds, hsp, h2, h3]

theorem c8_time_roundtrip (s : ℕ) (hs : s ≤ 359999) :
    timeToSeconds (Sum.inl (formatTime (s : ℚ))) = (s : ℚ) := by
  have hh : Int.ediv ((s : ℕ) : ℤ) 3600 = ((s / 3600 : ℕ) : ℤ) := rfl
  have hrem : Int.emod ((s : ℕ) : ℤ) 3600 = ((s % 3600 : ℕ) : ℤ) := rfl
  have hm : Int.ediv (((s % 3600 : ℕ) : ℤ)) 60 = ((s % 3600 / 60 : ℕ) : ℤ) := rfl
  have hsec : Int.emod (((s % 3600 : ℕ) : ℤ)) 60 = ((s % 3600 % 60 : ℕ) : ℤ) := rfl
  have hh100 : s / 3600 < 100 := by omega
  have hm100 : s % 3600 / 60 < 100 := by omega
  have hs100 : s % 3600 % 60 < 100 := by omega
  unfold formatTime
  rw [pyTrunc_natCast, hh, hrem, hm, hsec, fmt02_natCast, fmt02_natCast, fmt02_natCast]
  by_cases hbig : 3600 ≤ s
  · rw [if_pos (by exact_mod_cast Nat.div_pos hbig (by omega))]
    rw [timeToSeconds_parts3 _ (padZero 2 (natDigits (s / 3600)))
      (padZero 2 (natDigits (s % 3600 / 60))) (padZero 2 (natDigits (s % 3600 % 60)))
      ((s / 3600 : ℕ) : ℤ) ((s % 3600 / 60 : ℕ) : ℤ) ((s % 3600 % 60 : ℕ) : ℚ)
      (by rw [splitOnChar_append_sep ':' _ _ (components_parse _ hh100).2.2,
            splitOnChar_append_sep ':' _ _ (components_parse _ hm100).2.2,
            splitOnChar_no_sep ':' _ (components_parse _ hs100).2.2])
      (components_parse _ hh100).1 (components_parse _ hm100).1
      (components_parse _ hs100).2.1]
    have hkey : (s / 3600) * 3600 + (s % 3600 / 60) * 60 + s % 3600 % 60 = s := by omega
    rw [show (s : ℚ) =
        ((s / 3600 * 3600 + s % 3600 / 60 * 60 + s % 3600 % 60 : ℕ) : ℚ) by rw [hkey]]
    simp only [Int.cast_natCast]
    push_cast [Nat.cast_add, Nat.cast_mul]
    ring
  · rw [if_neg (by simp only [not_lt]; exact_mod_cast Nat.le_of_lt_succ (by omega))]
    rw [timeToSeconds_parts2 _ (padZero 2 (natDigits (s % 3600 / 60)))
      (padZero 2 (natDigits (s % 3600 % 60)))
      ((s % 3600 / 60 : ℕ) : ℤ) ((s % 3600 % 60 : ℕ) : ℚ)
      (by rw [splitOnChar_append_sep ':' _ _ (components_parse _ hm100).2.2,
            splitOnChar_no_sep ':' _ (components_parse _ hs100).2.2])
      (components_parse _ hm100).1 (components_parse _ hs100).2.1]
    have hkey2 : (s % 3600 / 60) * 60 + s % 3600 % 60 = s := by omega
    rw [show (s : ℚ) = ((s % 3600 / 60 * 60 + s % 3600 % 60 : ℕ) : ℚ) by rw [hkey2]]
    simp only [Int.cast_natCast]
    push_cast [Nat.cast_add, Nat.cast_mul]
    ring

/-- Witness for C8 at the concrete value 3725 (formatted `01:02:05`). -/
theorem c8_time_roundtrip_witness :
    timeToSeconds (Sum.inl (formatTime ((3725 : ℕ) : ℚ))) = ((3725 : ℕ) : ℚ) :=
  c8_time_roundtrip 3725 (by norm_num)

end YtDlp
